import Mathlib

/-!
Verification of the financial core of the Street-Smart Wealth Tracker.

The embedding models JavaScript numbers as exact rationals (`ℚ`); the
"within floating tolerance" phrases of the documentation become exact
equalities, or explicit `ε`-bounds where a tolerance genuinely matters.
A JavaScript value that may be non-numeric (`Number(x) || 0` coercion)
is modelled as `Option ℚ`, with `none` standing for a non-numeric input.
Dates are modelled by their UTC epoch-millisecond timestamps (`ℚ`);
ISO date strings such as "2024-07-01T00:00:00.000Z" are mapped to
milliseconds by `utcMillis`, the standard proleptic-Gregorian conversion
that `new Date(...).getTime()` performs.
-/

namespace SSWT

/-- JS coercion `Number(x) || 0`: a non-numeric input (`none`) becomes 0. -/
def numOr0 : Option ℚ → ℚ
  | none => 0
  | some x => x

/-- Milliseconds in one Julian year, `1000*60*60*24*365.25`. -/
def msPerYear : ℚ := 1000 * 60 * 60 * 24 * (36525 / 100)

/-- `yearsBetween(a, b)`: `(b - a) / (1000*60*60*24*365.25)`. -/
def yearsBetween (a b : ℚ) : ℚ := (b - a) / msPerYear

/-- An acquisition lot `{ qty, price, date }` (date in epoch ms). -/
structure Lot where
  qty : ℚ
  price : ℚ
  date : ℚ
deriving DecidableEq, Repr

/-- Result shape of `consumeLotsFIFO`: `{ consumed, newLots, unfilled }`. -/
structure FIFOResult where
  consumed : List Lot
  newLots : List Lot
  unfilled : ℚ
deriving DecidableEq, Repr

/-- The loop body of `consumeLotsFIFO`, returning
`(consumed, newLots, remaining-after-traversal)`. -/
def consumeGo : List Lot → ℚ → List Lot × List Lot × ℚ
  | [], remaining => ([], [], remaining)
  | lot :: rest, remaining =>
    if remaining ≤ 0 then
      let r := consumeGo rest remaining
      (r.1, lot :: r.2.1, r.2.2)
    else
      let take := min remaining lot.qty
      let r := consumeGo rest (remaining - take)
      ((if 0 < take then { lot with qty := take } :: r.1 else r.1),
       (if 0 < lot.qty - take then { lot with qty := lot.qty - take } :: r.2.1 else r.2.1),
       r.2.2)

/-- `consumeLotsFIFO(lots, sellQty)` from the source: walks lots in order,
takes `min(remaining, lot.qty)` from each, and reports
`unfilled = Math.max(0, remaining)`. -/
def consumeLotsFIFO (lots : List Lot) (sellQty : ℚ) : FIFOResult :=
  let r := consumeGo lots sellQty
  { consumed := r.1, newLots := r.2.1, unfilled := max 0 r.2.2 }

/-- Total quantity over a lot list. -/
def sumQty (lots : List Lot) : ℚ := (lots.map Lot.qty).sum

/-- One tracked asset, with the fields the core reads and writes. -/
structure Asset where
  ticker : String
  name : String
  targetWeight : ℚ
  price : ℚ
  units : ℚ
  invested : ℚ
  lots : List Lot
  firstContribution : Option ℚ
deriving DecidableEq, Repr

/-- A transaction log entry.  BUY entries leave the SELL-only fields
(`proceeds`, `costBase`, `gain`, `discountGain`) absent (`none`), matching
the JS objects that simply lack those keys. -/
structure Tx where
  kind : String
  ticker : String
  amount : ℚ
  units : ℚ
  price : ℚ
  date : Option ℚ
  proceeds : Option ℚ := none
  costBase : Option ℚ := none
  gain : Option ℚ := none
  discountGain : Option ℚ := none
deriving DecidableEq, Repr

/-- `handleBuy(ticker, amount)` restricted to the asset it acts on.
Returns the updated asset and the appended transaction (`none` = no-op).
`now` is the epoch-ms timestamp `new Date()` produces. -/
def handleBuy (a : Asset) (amount : Option ℚ) (now : ℚ) : Asset × Option Tx :=
  let amt := max 0 (numOr0 amount)
  if a.price = 0 ∨ amt ≤ 0 then (a, none)
  else
    let units := amt / a.price
    let lot : Lot := { qty := units, price := a.price, date := now }
    ({ a with
        units := a.units + units,
        invested := a.invested + amt,
        lots := a.lots ++ [lot],
        firstContribution :=
          match a.firstContribution with
          | some d => some d
          | none => some now },
     some { kind := "BUY", ticker := a.ticker, amount := amt, units := units,
            price := a.price, date := some now })

/-- The per-lot discount-eligible amount of `handleSell`:
half the non-negative gain when the lot was held at least one
365.25-day year at `saleDate`, the full non-negative gain otherwise. -/
def lotEligible (salePrice saleDate : ℚ) (l : Lot) : ℚ :=
  if 1 ≤ yearsBetween l.date saleDate then (1 / 2) * max 0 (l.qty * (salePrice - l.price))
  else max 0 (l.qty * (salePrice - l.price))

/-- `handleSell(ticker, amount)` restricted to the asset it acts on.
Returns the updated asset and the appended SELL transaction
(`none` = no-op).  `saleDate` is the epoch-ms sale timestamp. -/
def handleSell (a : Asset) (amount : Option ℚ) (saleDate : ℚ) : Asset × Option Tx :=
  let amt := max 0 (numOr0 amount)
  if a.price = 0 ∨ amt ≤ 0 then (a, none)
  else
    let units := amt / a.price
    let r := consumeLotsFIFO a.lots units
    if r.unfilled > 1 / 1000000000 then (a, none)
    else
      let proceeds := units * a.price
      let costBase := r.consumed.foldl (fun s l => s + l.qty * l.price) 0
      let discounted := r.consumed.foldl
        (fun acc l =>
          let heldYears := yearsBetween l.date saleDate
          let gain := l.qty * (a.price - l.price)
          let eligible := if 1 ≤ heldYears then (1 / 2) * max 0 gain else max 0 gain
          (acc.1 + max 0 gain, acc.2 + eligible)) ((0 : ℚ), (0 : ℚ))
      ({ a with units := max 0 (a.units - units), lots := r.newLots },
       some { kind := "SELL", ticker := a.ticker, amount := amt, units := units,
              price := a.price, proceeds := some proceeds, costBase := some costBase,
              gain := some (proceeds - costBase), discountGain := some discounted.2,
              date := some saleDate })

/-- Days from 0000-03-01 to the civil date `y-m-d` (proleptic Gregorian);
valid for the post-1970 dates this app handles. -/
def daysFromCivil (y m d : ℕ) : ℕ :=
  let yy := if m ≤ 2 then y - 1 else y
  let era := yy / 400
  let yoe := yy - era * 400
  let mp := (m + 9) % 12
  let doy := (153 * mp + 2) / 5 + (d - 1)
  let doe := yoe * 365 + yoe / 4 - yoe / 100 + doy
  era * 146097 + doe

/-- Epoch milliseconds of the UTC instant `y-mo-d h:mi:s.ms`, the value
`new Date("y-mo-dTh:mi:s.msZ").getTime()` yields. -/
def utcMillis (y mo d h mi s ms : ℕ) : ℤ :=
  ((daysFromCivil y mo d : ℤ) - 719468) * 86400000 +
    h * 3600000 + mi * 60000 + s * 1000 + ms

/-- Start of the financial-year window: July 1 of `fyStartYear`, 00:00:00.000 UTC. -/
def fyStartMs (fyStartYear : ℕ) : ℤ := utcMillis fyStartYear 7 1 0 0 0 0

/-- End of the financial-year window: June 30 of `fyStartYear + 1`, 23:59:59.999 UTC. -/
def fyEndMs (fyStartYear : ℕ) : ℤ := utcMillis (fyStartYear + 1) 6 30 23 59 59 999

/-- The filter predicate of `CGTSummaryFY`:
`t.kind === "SELL" && t.date && getTime() >= start && getTime() <= end`. -/
def inFYWindow (fyStartYear : ℕ) (t : Tx) : Bool :=
  t.kind == "SELL" &&
    match t.date with
    | some d => decide ((fyStartMs fyStartYear : ℚ) ≤ d) && decide (d ≤ (fyEndMs fyStartYear : ℚ))
    | none => false

/-- The financial-year window membership exactly as the specification
words it: a SELL transaction whose date lies in the inclusive UTC window
from July 1 of `fyStartYear` at 00:00:00.000 through June 30 of
`fyStartYear + 1` at 23:59:59.999. -/
def inFYWindowSpec (fyStartYear : ℕ) (t : Tx) : Prop :=
  t.kind = "SELL" ∧ ∃ d, t.date = some d ∧
    (utcMillis fyStartYear 7 1 0 0 0 0 : ℚ) ≤ d ∧
    d ≤ (utcMillis (fyStartYear + 1) 6 30 23 59 59 999 : ℚ)

/-- Result shape of `CGTSummaryFY`. -/
structure FYSummary where
  events : ℕ
  grossGain : ℚ
  discountGain : ℚ
deriving DecidableEq, Repr

/-- `CGTSummaryFY(fyStartYear)` over a transaction list. -/
def CGTSummaryFY (txn : List Tx) (fyStartYear : ℕ) : FYSummary :=
  let sells := txn.filter (inFYWindow fyStartYear)
  { events := sells.length,
    grossGain := sells.foldl (fun s t => s + max 0 (t.gain.getD 0)) 0,
    discountGain := sells.foldl (fun s t => s + max 0 (t.discountGain.getD 0)) 0 }

/-- One row of the planner preview. -/
structure PlanRow where
  ticker : String
  name : String
  weight : ℚ
  amount : ℚ
  units : Option ℚ
  price : ℚ
deriving DecidableEq, Repr

/-- `spendable = Math.max(0, budget - fees - budget * bufferPct / 100)` with
each input first clamped by `Math.max(0, Number(x) || 0)`. -/
def spendableOf (budget fees bufferPct : Option ℚ) : ℚ :=
  let b := max 0 (numOr0 budget)
  let f := max 0 (numOr0 fees)
  let buf := max 0 (numOr0 bufferPct)
  max 0 (b - f - b * (buf / 100))

/-- `assets.reduce((s, a) => s + (a.targetWeight || 0), 0)`. -/
def weightTotal (assets : List Asset) : ℚ := assets.foldl (fun s a => s + a.targetWeight) 0

/-- The `plannedSplits` memo: the planner preview rows. -/
def plannedSplits (assets : List Asset) (budget fees bufferPct : Option ℚ) : List PlanRow :=
  let spendable := spendableOf budget fees bufferPct
  if spendable ≤ 0 then []
  else
    let totalWeights : ℚ := if weightTotal assets = 0 then 1 else weightTotal assets
    assets.map fun a =>
      { ticker := a.ticker, name := a.name, weight := a.targetWeight,
        amount := spendable * (a.targetWeight / totalWeights),
        units := if (0 : ℚ) < a.price
                 then some (spendable * (a.targetWeight / totalWeights) / a.price)
                 else none,
        price := a.price }

/-- One row of the rebalance `suggestions` memo. -/
structure DriftRow where
  ticker : String
  name : String
  diffPct : ℚ
  currentWeight : ℚ
deriving DecidableEq, Repr

/-- The per-asset delta computed inside `suggestions`. -/
def driftRow (totalValue : ℚ) (a : Asset) : DriftRow :=
  let currentWeight := if 0 < totalValue then a.units * a.price / totalValue else 0
  { ticker := a.ticker, name := a.name,
    diffPct := (currentWeight - a.targetWeight) * 100,
    currentWeight := currentWeight }

/-- The `suggestions` memo: assets whose absolute drift reaches the
threshold, sorted descending by absolute drift (stable, as ES2019
`Array.prototype.sort` is). -/
def suggestions (assets : List Asset) (totalValue thresholdPct : ℚ) (enabled : Bool) :
    List DriftRow :=
  if !enabled || decide (totalValue ≤ 0) then []
  else
    let deltas := assets.map (driftRow totalValue)
    let out := deltas.filter (fun d => decide (thresholdPct ≤ |d.diffPct|))
    out.mergeSort (fun x y => decide (|y.diffPct| ≤ |x.diffPct|))

/-- `getCAGR(asset)` evaluated at the epoch-ms timestamp `now`. -/
noncomputable def getCAGR (a : Asset) (now : ℚ) : ℝ :=
  match a.firstContribution with
  | none => 0
  | some fc =>
    if a.invested ≤ 0 then 0
    else
      let years := yearsBetween fc now
      if years ≤ 0 then 0
      else
        let value := a.units * a.price
        if value ≤ 0 then (-1 : ℝ)
        else Real.rpow ((value / a.invested : ℚ) : ℝ) (((1 / years : ℚ)) : ℝ) - 1

/-- A parsed JSON value, the result of `JSON.parse`. -/
inductive Json where
  | null
  | bool (b : Bool)
  | num (q : ℚ)
  | str (s : String)
  | arr (elems : List Json)
  | obj (fields : List (String × Json))

/-- JS property access `data.k`: `none` when absent or the value is not an object. -/
def Json.getField : Json → String → Option Json
  | .obj fs, k => fs.lookup k
  | _, _ => none

/-- The in-memory snapshot the import replaces: the `assets` and
`transactions` React states, held as the raw parsed values. -/
structure SnapshotState where
  assets : Json
  transactions : Json

/-- `onImportFile` after file reading: `contents` is the parsed JSON
(`none` when `JSON.parse` threw).  Returns the resulting state and the
reported error message, if any. -/
def onImportFile (st : SnapshotState) (contents : Option Json) : SnapshotState × Option String :=
  match contents with
  | none => (st, some "Import failed: invalid JSON")
  | some data =>
    match data.getField "assets" with
    | some (Json.arr as) =>
      ({ assets := Json.arr as,
         transactions :=
           match data.getField "transactions" with
           | some (Json.arr ts) => Json.arr ts
           | _ => Json.arr [] }, none)
    | _ => (st, some "Import failed: Invalid backup - assets missing")

/-! ## Helper lemmas -/

theorem sumQty_nil : sumQty [] = 0 := rfl

theorem sumQty_cons (l : Lot) (ls : List Lot) : sumQty (l :: ls) = l.qty + sumQty ls := by
  simp [sumQty]

theorem sumQty_append (xs ys : List Lot) : sumQty (xs ++ ys) = sumQty xs + sumQty ys := by
  simp [sumQty]

/-- Quantity accounting of the FIFO walk: with non-negative lots and a
non-negative starting `remaining`, the consumed total plus the final
`remaining` equals the start, and the final `remaining` is non-negative. -/
theorem consumeGo_consumed_remaining (lots : List Lot) :
    ∀ remaining : ℚ, (∀ l ∈ lots, 0 ≤ l.qty) → 0 ≤ remaining →
      sumQty (consumeGo lots remaining).1 + (consumeGo lots remaining).2.2 = remaining ∧
      0 ≤ (consumeGo lots remaining).2.2 := by
  induction lots with
  | nil => intro remaining _ hr; simp [consumeGo, sumQty]; exact hr
  | cons lot rest ih =>
    intro remaining hl hr
    have hq : 0 ≤ lot.qty := hl lot (List.mem_cons_self _ _)
    have hrest : ∀ l ∈ rest, 0 ≤ l.qty := fun l hm => hl l (List.mem_cons_of_mem _ hm)
    by_cases h : remaining ≤ 0
    · have ⟨ih1, ih2⟩ := ih remaining hrest hr
      simp only [consumeGo, if_pos h]
      exact ⟨ih1, ih2⟩
    · push_neg at h
      set take := min remaining lot.qty with htake
      have htake0 : 0 ≤ take := le_min (le_of_lt h) hq
      have htakele : take ≤ remaining := min_le_left _ _
      have ⟨ih1, ih2⟩ := ih (remaining - take) hrest (by linarith)
      simp only [consumeGo, if_neg (not_le.mpr h)]
      refine ⟨?_, ih2⟩
      by_cases ht : 0 < take
      · rw [← htake]
        simp only [if_pos ht, sumQty_cons]
        linarith
      · have : take = 0 := le_antisymm (not_lt.mp ht) htake0
        rw [← htake]
        simp only [if_neg ht]
        rw [this] at ih1 ⊢
        simpa using ih1

/-- Mass conservation of the FIFO walk: consumed plus residual equals the
original total, for non-negative lots. -/
theorem consumeGo_mass (lots : List Lot) :
    ∀ remaining : ℚ, (∀ l ∈ lots, 0 ≤ l.qty) →
      sumQty (consumeGo lots remaining).1 + sumQty (consumeGo lots remaining).2.1 =
        sumQty lots := by
  induction lots with
  | nil => intro remaining _; simp [consumeGo, sumQty]
  | cons lot rest ih =>
    intro remaining hl
    have hq : 0 ≤ lot.qty := hl lot (List.mem_cons_self _ _)
    have hrest : ∀ l ∈ rest, 0 ≤ l.qty := fun l hm => hl l (List.mem_cons_of_mem _ hm)
    by_cases h : remaining ≤ 0
    · have ih1 := ih remaining hrest
      simp only [consumeGo, if_pos h, sumQty_cons]
      linarith
    · push_neg at h
      set take := min remaining lot.qty with htake
      have htake0 : 0 ≤ take := le_min (le_of_lt h) hq
      have htakeq : take ≤ lot.qty := min_le_right _ _
      have ih1 := ih (remaining - take) hrest
      simp only [consumeGo, if_neg (not_le.mpr h)]
      rw [← htake]
      rw [sumQty_cons]
      by_cases ht : 0 < take
      · by_cases hlo : 0 < lot.qty - take
        · simp only [if_pos ht, if_pos hlo, sumQty_cons]
          linarith
        · have e2 : lot.qty - take = 0 := le_antisymm (not_lt.mp hlo) (by linarith)
          simp only [if_pos ht, if_neg hlo, sumQty_cons]
          linarith
      · have e1 : take = 0 := le_antisymm (not_lt.mp ht) htake0
        by_cases hlo : 0 < lot.qty - take
        · simp only [if_neg ht, if_pos hlo, sumQty_cons]
          linarith
        · have e2 : lot.qty - take = 0 := le_antisymm (not_lt.mp hlo) (by linarith)
          simp only [if_neg ht, if_neg hlo]
          linarith

/-- Every residual lot of the FIFO walk has non-negative quantity,
given non-negative input lots. -/
theorem consumeGo_newLots_nonneg (lots : List Lot) :
    ∀ remaining : ℚ, (∀ l ∈ lots, 0 ≤ l.qty) →
      ∀ l ∈ (consumeGo lots remaining).2.1, 0 ≤ l.qty := by
  induction lots with
  | nil => intro remaining _ l hm; simp [consumeGo] at hm
  | cons lot rest ih =>
    intro remaining hl l hm
    have hq : 0 ≤ lot.qty := hl lot (List.mem_cons_self _ _)
    have hrest : ∀ l ∈ rest, 0 ≤ l.qty := fun l hx => hl l (List.mem_cons_of_mem _ hx)
    by_cases h : remaining ≤ 0
    · simp only [consumeGo, if_pos h] at hm
      rcases List.mem_cons.mp hm with h1 | h2
      · subst h1; exact hq
      · exact ih remaining hrest l h2
    · simp only [consumeGo, if_neg h] at hm
      by_cases hlo : 0 < lot.qty - min remaining lot.qty
      · rw [if_pos hlo] at hm
        rcases List.mem_cons.mp hm with h1 | h2
        · subst h1; exact le_of_lt hlo
        · exact ih _ hrest l h2
      · rw [if_neg hlo] at hm
        exact ih _ hrest l hm

theorem foldl_add_eq {α : Type} (f : α → ℚ) (l : List α) :
    ∀ c : ℚ, l.foldl (fun s x => s + f x) c = c + (l.map f).sum := by
  induction l with
  | nil => intro c; simp
  | cons x xs ih => intro c; simp [ih, add_assoc]

theorem foldl_pair_snd {α : Type} (g h : α → ℚ) (l : List α) :
    ∀ c : ℚ × ℚ, (l.foldl (fun acc x => (acc.1 + g x, acc.2 + h x)) c).2 =
      c.2 + (l.map h).sum := by
  induction l with
  | nil => intro c; simp
  | cons x xs ih => intro c; simp [ih, add_assoc]

/-- With non-negative lots, the remaining quantity of the FIFO walk never
increases. -/
theorem consumeGo_final_le (lots : List Lot) :
    ∀ remaining : ℚ, (∀ l ∈ lots, 0 ≤ l.qty) →
      (consumeGo lots remaining).2.2 ≤ remaining := by
  induction lots with
  | nil => intro remaining _; simp [consumeGo]
  | cons lot rest ih =>
    intro remaining hl
    have hq : 0 ≤ lot.qty := hl lot (List.mem_cons_self _ _)
    have hrest : ∀ l ∈ rest, 0 ≤ l.qty := fun l hm => hl l (List.mem_cons_of_mem _ hm)
    by_cases h : remaining ≤ 0
    · simp only [consumeGo, if_pos h]
      exact ih remaining hrest
    · push_neg at h
      have htake0 : 0 ≤ min remaining lot.qty := le_min (le_of_lt h) hq
      have := ih (remaining - min remaining lot.qty) hrest
      simp only [consumeGo, if_neg (not_le.mpr h)]
      linarith

/-- If the FIFO walk still has positive remaining quantity at the end,
it consumed everything: the residual list is empty. -/
theorem consumeGo_pos_newLots_nil (lots : List Lot) :
    ∀ remaining : ℚ, (∀ l ∈ lots, 0 ≤ l.qty) →
      0 < (consumeGo lots remaining).2.2 → (consumeGo lots remaining).2.1 = [] := by
  induction lots with
  | nil => intro remaining _ _; simp [consumeGo]
  | cons lot rest ih =>
    intro remaining hl hpos
    have hq : 0 ≤ lot.qty := hl lot (List.mem_cons_self _ _)
    have hrest : ∀ l ∈ rest, 0 ≤ l.qty := fun l hm => hl l (List.mem_cons_of_mem _ hm)
    by_cases h : remaining ≤ 0
    · exfalso
      have h1 := consumeGo_final_le rest remaining hrest
      simp only [consumeGo, if_pos h] at hpos
      linarith
    · push_neg at h
      simp only [consumeGo, if_neg (not_le.mpr h)] at hpos ⊢
      have hfin := consumeGo_final_le rest (remaining - min remaining lot.qty) hrest
      have hleft : ¬ (0 < lot.qty - min remaining lot.qty) := by
        intro hlo
        have : min remaining lot.qty = remaining := by
          rcases min_cases remaining lot.qty with ⟨he, _⟩ | ⟨he, hle⟩
          · exact he
          · linarith
        rw [this] at hpos hfin
        simp at hpos hfin
        linarith
      rw [if_neg hleft]
      exact ih _ hrest hpos

/-! ## Claim theorems -/

/-- C1: for every list of lots with non-negative quantities and every
non-negative sell quantity, `consumeLotsFIFO` returns consumed, residual
and `unfilled` such that the total consumed quantity plus `unfilled`
equals the sell quantity, the total residual quantity plus the total
consumed quantity equals the total original quantity, and no residual
lot quantity is negative. -/
theorem consumeLotsFIFO_conservation (lots : List Lot) (sellQty : ℚ)
    (hl : ∀ l ∈ lots, 0 ≤ l.qty) (hq : 0 ≤ sellQty) :
    sumQty (consumeLotsFIFO lots sellQty).consumed + (consumeLotsFIFO lots sellQty).unfilled
        = sellQty ∧
    sumQty (consumeLotsFIFO lots sellQty).newLots + sumQty (consumeLotsFIFO lots sellQty).consumed
        = sumQty lots ∧
    ∀ l ∈ (consumeLotsFIFO lots sellQty).newLots, 0 ≤ l.qty := by
  have h1 := consumeGo_consumed_remaining lots sellQty hl hq
  have h2 := consumeGo_mass lots sellQty hl
  have h3 := consumeGo_newLots_nonneg lots sellQty hl
  have hmax : max 0 (consumeGo lots sellQty).2.2 = (consumeGo lots sellQty).2.2 :=
    max_eq_right h1.2
  refine ⟨?_, ?_, ?_⟩
  · simp only [consumeLotsFIFO, hmax]
    exact h1.1
  · simp only [consumeLotsFIFO]
    linarith [h2]
  · simpa only [consumeLotsFIFO] using h3

/-- Witness for C1 at the source's own smoke-test input:
lots `[{qty 2, price 100}, {qty 3, price 200}]`, sell quantity 4. -/
theorem consumeLotsFIFO_conservation_witness :
    (∀ l ∈ [Lot.mk 2 100 0, Lot.mk 3 200 0], 0 ≤ l.qty) ∧ (0 : ℚ) ≤ 4 ∧
    (sumQty (consumeLotsFIFO [Lot.mk 2 100 0, Lot.mk 3 200 0] 4).consumed
        + (consumeLotsFIFO [Lot.mk 2 100 0, Lot.mk 3 200 0] 4).unfilled = 4 ∧
     sumQty (consumeLotsFIFO [Lot.mk 2 100 0, Lot.mk 3 200 0] 4).newLots
        + sumQty (consumeLotsFIFO [Lot.mk 2 100 0, Lot.mk 3 200 0] 4).consumed
        = sumQty [Lot.mk 2 100 0, Lot.mk 3 200 0] ∧
     ∀ l ∈ (consumeLotsFIFO [Lot.mk 2 100 0, Lot.mk 3 200 0] 4).newLots, 0 ≤ l.qty) :=
  ⟨by decide, by norm_num,
   consumeLotsFIFO_conservation [Lot.mk 2 100 0, Lot.mk 3 200 0] 4 (by decide) (by norm_num)⟩

/-- C2: when its preconditions hold (positive price, positive amount,
FIFO `unfilled` within the 1e-9 tolerance), `handleSell` appends a SELL
transaction with `gain = proceeds - costBase` and `discountGain` equal to
the sum over consumed lots of half the lot's non-negative gain when held
at least one 365.25-day year and the full non-negative gain otherwise;
the asset's units become `max 0 (units - soldUnits)`, its lots become the
FIFO residual, and `invested` is unchanged. -/
theorem handleSell_spec (a : Asset) (amount : Option ℚ) (d : ℚ)
    (hp : 0 < a.price) (ha : 0 < numOr0 amount)
    (hu : (consumeLotsFIFO a.lots (max 0 (numOr0 amount) / a.price)).unfilled
            ≤ 1 / 1000000000) :
    (handleSell a amount d).1 =
      { a with
          units := max 0 (a.units - max 0 (numOr0 amount) / a.price),
          lots := (consumeLotsFIFO a.lots (max 0 (numOr0 amount) / a.price)).newLots } ∧
    (handleSell a amount d).2 = some
      { kind := "SELL", ticker := a.ticker, amount := max 0 (numOr0 amount),
        units := max 0 (numOr0 amount) / a.price, price := a.price,
        proceeds := some (max 0 (numOr0 amount) / a.price * a.price),
        costBase := some
          (((consumeLotsFIFO a.lots (max 0 (numOr0 amount) / a.price)).consumed.map
            (fun l => l.qty * l.price)).sum),
        gain := some (max 0 (numOr0 amount) / a.price * a.price -
          ((consumeLotsFIFO a.lots (max 0 (numOr0 amount) / a.price)).consumed.map
            (fun l => l.qty * l.price)).sum),
        discountGain := some
          (((consumeLotsFIFO a.lots (max 0 (numOr0 amount) / a.price)).consumed.map
            (lotEligible a.price d)).sum),
        date := some d } ∧
    (handleSell a amount d).1.invested = a.invested := by
  have hamt : 0 < max 0 (numOr0 amount) := lt_max_of_lt_right ha
  have hcond : ¬(a.price = 0 ∨ max 0 (numOr0 amount) ≤ 0) := by
    push_neg
    exact ⟨ne_of_gt hp, hamt⟩
  have hrun : handleSell a amount d =
      ({ a with
          units := max 0 (a.units - max 0 (numOr0 amount) / a.price),
          lots := (consumeLotsFIFO a.lots (max 0 (numOr0 amount) / a.price)).newLots },
       some { kind := "SELL", ticker := a.ticker, amount := max 0 (numOr0 amount),
              units := max 0 (numOr0 amount) / a.price, price := a.price,
              proceeds := some (max 0 (numOr0 amount) / a.price * a.price),
              costBase := some
                ((consumeLotsFIFO a.lots (max 0 (numOr0 amount) / a.price)).consumed.foldl
                  (fun s l => s + l.qty * l.price) 0),
              gain := some (max 0 (numOr0 amount) / a.price * a.price -
                (consumeLotsFIFO a.lots (max 0 (numOr0 amount) / a.price)).consumed.foldl
                  (fun s l => s + l.qty * l.price) 0),
              discountGain := some
                (((consumeLotsFIFO a.lots (max 0 (numOr0 amount) / a.price)).consumed.foldl
                  (fun acc l =>
                    (acc.1 + max 0 (l.qty * (a.price - l.price)),
                     acc.2 + if 1 ≤ yearsBetween l.date d
                             then (1 / 2) * max 0 (l.qty * (a.price - l.price))
                             else max 0 (l.qty * (a.price - l.price)))) ((0 : ℚ), (0 : ℚ))).2),
              date := some d }) := by
    simp only [handleSell, if_neg hcond, if_neg (not_lt.mpr hu)]
  have hcost :
      (consumeLotsFIFO a.lots (max 0 (numOr0 amount) / a.price)).consumed.foldl
        (fun s l => s + l.qty * l.price) 0 =
      ((consumeLotsFIFO a.lots (max 0 (numOr0 amount) / a.price)).consumed.map
        (fun l => l.qty * l.price)).sum := by
    rw [foldl_add_eq]
    simp
  have hdisc :
      ((consumeLotsFIFO a.lots (max 0 (numOr0 amount) / a.price)).consumed.foldl
        (fun acc l =>
          (acc.1 + max 0 (l.qty * (a.price - l.price)),
           acc.2 + if 1 ≤ yearsBetween l.date d
                   then (1 / 2) * max 0 (l.qty * (a.price - l.price))
                   else max 0 (l.qty * (a.price - l.price)))) ((0 : ℚ), (0 : ℚ))).2 =
      ((consumeLotsFIFO a.lots (max 0 (numOr0 amount) / a.price)).consumed.map
        (lotEligible a.price d)).sum := by
    have hfun : (fun l : Lot => if 1 ≤ yearsBetween l.date d
          then (1 / 2) * max 0 (l.qty * (a.price - l.price))
          else max 0 (l.qty * (a.price - l.price))) = lotEligible a.price d := by
      funext l
      rw [lotEligible]
    rw [foldl_pair_snd (fun l : Lot => max 0 (l.qty * (a.price - l.price)))
      (fun l : Lot => if 1 ≤ yearsBetween l.date d
                      then (1 / 2) * max 0 (l.qty * (a.price - l.price))
                      else max 0 (l.qty * (a.price - l.price))), hfun]
    simp
  rw [hrun, hcost, hdisc]
  exact ⟨rfl, rfl, rfl⟩

/-- Witness for C2: price 10, one lot of 1 unit at price 5 acquired at
epoch 0, sold for 10 AUD exactly one Julian year later. -/
theorem handleSell_spec_witness :
    (0 : ℚ) <
      (Asset.mk "X" "X" 0 10 1 100 [Lot.mk 1 5 0] none).price ∧
    (0 : ℚ) < numOr0 (some 10) ∧
    (consumeLotsFIFO [Lot.mk 1 5 0] (max 0 (numOr0 (some 10)) / 10)).unfilled
        ≤ 1 / 1000000000 ∧
    (handleSell (Asset.mk "X" "X" 0 10 1 100 [Lot.mk 1 5 0] none) (some 10)
        31557600000).1.invested =
      (Asset.mk "X" "X" 0 10 1 100 [Lot.mk 1 5 0] none).invested :=
  ⟨by norm_num, by norm_num [numOr0],
   by norm_num [consumeLotsFIFO, consumeGo, numOr0],
   (handleSell_spec (Asset.mk "X" "X" 0 10 1 100 [Lot.mk 1 5 0] none) (some 10)
      31557600000 (by norm_num) (by norm_num [numOr0])
      (by norm_num [consumeLotsFIFO, consumeGo, numOr0])).2.2⟩


/-- Counterexample to C3 as stated: an asset whose price is negative
(hence "not positive") is not rejected by the guard `!a.price`, which
only catches a zero price.  Buying 1 AUD at price −1 mutates the asset
(units drop from 0 to −1) and appends a transaction. -/
theorem handleBuy_negative_price_counterexample :
    (Asset.mk "X" "X" 0 (-1) 0 0 [] none).price ≤ 0 ∧
    (handleBuy (Asset.mk "X" "X" 0 (-1) 0 0 [] none) (some 1) 0).1.units = -1 ∧
    (handleBuy (Asset.mk "X" "X" 0 (-1) 0 0 [] none) (some 1) 0).2 ≠ none := by
  have hrun : handleBuy (Asset.mk "X" "X" 0 (-1) 0 0 [] none) (some 1) 0 =
      (Asset.mk "X" "X" 0 (-1) (-1) 1 [Lot.mk (-1) (-1) 0] (some 0),
       some (Tx.mk "BUY" "X" 1 (-1) (-1) (some 0) none none none none)) := by
    norm_num [handleBuy, numOr0]
  rw [hrun]
  refine ⟨by norm_num, rfl, by simp⟩

/-- C3 (amended): a buy or sell with a non-positive or non-numeric
amount or a zero asset price, and a sell whose FIFO consumption reports
`unfilled` greater than 1e-9, is a no-op: the asset is unchanged and no
transaction is appended. -/
theorem handleBuySell_noop (a : Asset) (amount : Option ℚ) (t : ℚ) :
    (a.price = 0 ∨ numOr0 amount ≤ 0 →
      handleBuy a amount t = (a, none) ∧ handleSell a amount t = (a, none)) ∧
    ((1 : ℚ) / 1000000000 < (consumeLotsFIFO a.lots (max 0 (numOr0 amount) / a.price)).unfilled →
      handleSell a amount t = (a, none)) := by
  constructor
  · intro h
    have hc : a.price = 0 ∨ max 0 (numOr0 amount) ≤ 0 := by
      rcases h with h | h
      · exact Or.inl h
      · exact Or.inr (max_le le_rfl h)
    exact ⟨by simp only [handleBuy, if_pos hc], by simp only [handleSell, if_pos hc]⟩
  · intro h
    by_cases hc : a.price = 0 ∨ max 0 (numOr0 amount) ≤ 0
    · simp only [handleSell, if_pos hc]
    · simp only [handleSell, if_neg hc, if_pos h]

/-- Witness for C3 (amended): a negative amount is a no-op on both
operations. -/
theorem handleBuySell_noop_witness :
    ((Asset.mk "W" "W" 0 1 0 0 [] none).price = 0 ∨ numOr0 (some (-5)) ≤ 0) ∧
    (handleBuy (Asset.mk "W" "W" 0 1 0 0 [] none) (some (-5)) 0 =
        (Asset.mk "W" "W" 0 1 0 0 [] none, none) ∧
      handleSell (Asset.mk "W" "W" 0 1 0 0 [] none) (some (-5)) 0 =
        (Asset.mk "W" "W" 0 1 0 0 [] none, none)) :=
  ⟨Or.inr (by norm_num [numOr0]),
    (handleBuySell_noop (Asset.mk "W" "W" 0 1 0 0 [] none) (some (-5)) 0).1
      (Or.inr (by norm_num [numOr0]))⟩

/-- Counterexample to C4 as stated: the quantified invariant fails on
assets outside the states buys construct.  (i) With a negative-quantity
lot (lots `[2, −1]`, units 1, price 1) the invariant holds exactly
before a 2-AUD sell but is off by 1 after it.  (ii) With a negative
price (price −1, no lots, units 0) it holds exactly before a 1-AUD sell
but is off by 1 after it. -/
theorem units_lots_invariant_counterexample :
    (sumQty (Asset.mk "X" "X" 0 1 1 0 [Lot.mk 2 1 0, Lot.mk (-1) 1 0] none).lots =
        (Asset.mk "X" "X" 0 1 1 0 [Lot.mk 2 1 0, Lot.mk (-1) 1 0] none).units ∧
      sumQty (handleSell (Asset.mk "X" "X" 0 1 1 0 [Lot.mk 2 1 0, Lot.mk (-1) 1 0] none)
          (some 2) 0).1.lots = -1 ∧
      (handleSell (Asset.mk "X" "X" 0 1 1 0 [Lot.mk 2 1 0, Lot.mk (-1) 1 0] none)
          (some 2) 0).1.units = 0) ∧
    (sumQty (Asset.mk "Y" "Y" 0 (-1) 0 0 [] none).lots =
        (Asset.mk "Y" "Y" 0 (-1) 0 0 [] none).units ∧
      sumQty (handleSell (Asset.mk "Y" "Y" 0 (-1) 0 0 [] none) (some 1) 0).1.lots = 0 ∧
      (handleSell (Asset.mk "Y" "Y" 0 (-1) 0 0 [] none) (some 1) 0).1.units = 1) := by
  refine ⟨⟨?_, ?_, ?_⟩, ⟨?_, ?_, ?_⟩⟩ <;>
    norm_num [handleSell, consumeLotsFIFO, consumeGo, numOr0, sumQty]

/-- C4 (amended): on an asset with non-negative price and non-negative
lot quantities, if the sum of lot quantities is within `δ` of `units`,
then after any `handleBuy` and after any `handleSell` the sum of lot
quantities is still within `δ` of `units`. -/
theorem units_lots_invariant (a : Asset) (amount : Option ℚ) (t : ℚ) (δ : ℚ)
    (hp : 0 ≤ a.price) (hl : ∀ l ∈ a.lots, 0 ≤ l.qty)
    (hinv : |sumQty a.lots - a.units| ≤ δ) :
    |sumQty (handleBuy a amount t).1.lots - (handleBuy a amount t).1.units| ≤ δ ∧
    |sumQty (handleSell a amount t).1.lots - (handleSell a amount t).1.units| ≤ δ := by
  have hδ : 0 ≤ δ := le_trans (abs_nonneg _) hinv
  constructor
  · by_cases hc0 : a.price = 0 ∨ max 0 (numOr0 amount) ≤ 0
    · simp only [handleBuy, if_pos hc0]
      exact hinv
    · simp only [handleBuy, if_neg hc0, sumQty_append, sumQty_cons, sumQty_nil]
      have he : sumQty a.lots + (max 0 (numOr0 amount) / a.price + 0) -
          (a.units + max 0 (numOr0 amount) / a.price) = sumQty a.lots - a.units := by ring
      rw [he]
      exact hinv
  · by_cases hc0 : a.price = 0 ∨ max 0 (numOr0 amount) ≤ 0
    · simp only [handleSell, if_pos hc0]
      exact hinv
    · have hcand := hc0
      push_neg at hcand
      by_cases hun : (1 : ℚ) / 1000000000 <
          (consumeLotsFIFO a.lots (max 0 (numOr0 amount) / a.price)).unfilled
      · simp only [handleSell, if_neg hc0, if_pos hun]
        exact hinv
      · simp only [handleSell, if_neg hc0, if_neg hun]
        set u : ℚ := max 0 (numOr0 amount) / a.price with hu
        have hppos : 0 < a.price := lt_of_le_of_ne hp (Ne.symm hcand.1)
        have hupos : 0 ≤ u := div_nonneg (le_max_left _ _) hp
        have hacc := consumeGo_consumed_remaining a.lots u hl hupos
        have hmass := consumeGo_mass a.lots u hl
        have hnn := consumeGo_newLots_nonneg a.lots u hl
        have hsumnn : ∀ ls : List Lot, (∀ l ∈ ls, 0 ≤ l.qty) → 0 ≤ sumQty ls := by
          intro ls hls
          induction ls with
          | nil => simp [sumQty]
          | cons x xs ih =>
            rw [sumQty_cons]
            have hx := hls x (List.mem_cons_self _ _)
            have hxs := ih (fun l hm => hls l (List.mem_cons_of_mem _ hm))
            linarith
        have hresnn : 0 ≤ sumQty (consumeGo a.lots u).2.1 := hsumnn _ hnn
        have hsame : sumQty (consumeLotsFIFO a.lots u).newLots =
            sumQty (consumeGo a.lots u).2.1 := rfl
        by_cases hz : (consumeGo a.lots u).2.2 ≤ 0
        · have hfin0 : (consumeGo a.lots u).2.2 = 0 := le_antisymm hz hacc.2
          have hcons : sumQty (consumeGo a.lots u).1 = u := by linarith [hacc.1]
          have hres : sumQty (consumeLotsFIFO a.lots u).newLots = sumQty a.lots - u := by
            rw [hsame]
            linarith [hmass]
          rw [hres]
          by_cases hge : 0 ≤ a.units - u
          · rw [max_eq_right hge]
            have he : sumQty a.lots - u - (a.units - u) = sumQty a.lots - a.units := by ring
            rw [he]
            exact hinv
          · push_neg at hge
            rw [max_eq_left (le_of_lt hge), sub_zero]
            have h1 : 0 ≤ sumQty a.lots - u := by linarith [hres, hresnn, hsame]
            rw [abs_of_nonneg h1]
            have h3 : sumQty a.lots - a.units ≤ δ := le_of_abs_le hinv
            linarith
        · push_neg at hz
          have hnil : (consumeGo a.lots u).2.1 = [] :=
            consumeGo_pos_newLots_nil a.lots u hl hz
          have hcons : sumQty (consumeGo a.lots u).1 = sumQty a.lots := by
            rw [hnil, sumQty_nil] at hmass
            linarith
          have huval : u = sumQty a.lots + (consumeGo a.lots u).2.2 := by
            linarith [hacc.1]
          have hresnil : sumQty (consumeLotsFIFO a.lots u).newLots = 0 := by
            rw [hsame, hnil, sumQty_nil]
          rw [hresnil]
          have hdlow : -δ ≤ sumQty a.lots - a.units := neg_le_of_abs_le hinv
          have hub : a.units - u ≤ δ := by linarith
          rw [zero_sub, abs_neg, abs_of_nonneg (le_max_left 0 _)]
          exact max_le hδ hub

/-- Witness for C4 (amended): asset with one lot of 2 units at price 1,
units 2, buying and selling 1 AUD keeps the invariant at δ = 0. -/
theorem units_lots_invariant_witness :
    ((0 : ℚ) ≤ (Asset.mk "Z" "Z" 0 1 2 2 [Lot.mk 2 1 0] none).price ∧
      (∀ l ∈ (Asset.mk "Z" "Z" 0 1 2 2 [Lot.mk 2 1 0] none).lots, 0 ≤ l.qty) ∧
      |sumQty (Asset.mk "Z" "Z" 0 1 2 2 [Lot.mk 2 1 0] none).lots -
        (Asset.mk "Z" "Z" 0 1 2 2 [Lot.mk 2 1 0] none).units| ≤ 0) ∧
    |sumQty (handleBuy (Asset.mk "Z" "Z" 0 1 2 2 [Lot.mk 2 1 0] none) (some 1) 0).1.lots -
      (handleBuy (Asset.mk "Z" "Z" 0 1 2 2 [Lot.mk 2 1 0] none) (some 1) 0).1.units| ≤ 0 ∧
    |sumQty (handleSell (Asset.mk "Z" "Z" 0 1 2 2 [Lot.mk 2 1 0] none) (some 1) 0).1.lots -
      (handleSell (Asset.mk "Z" "Z" 0 1 2 2 [Lot.mk 2 1 0] none) (some 1) 0).1.units| ≤ 0 :=
  ⟨⟨by norm_num, by decide, by norm_num [sumQty]⟩,
    units_lots_invariant (Asset.mk "Z" "Z" 0 1 2 2 [Lot.mk 2 1 0] none) (some 1) 0 0
      (by norm_num) (by decide) (by norm_num [sumQty])⟩

/-- C5: `CGTSummaryFY` matches exactly the SELL transactions whose date
lies in the inclusive UTC window July 1 `fyStartYear` 00:00:00.000
through June 30 `fyStartYear+1` 23:59:59.999 (the code's filter agrees
with the specification's window predicate), and returns their count,
`grossGain = Σ max(0, gain)` and `discountGain = Σ max(0, discountGain)`.
It is a pure function of its inputs.  Concretely, a SELL dated
2024-06-30T23:59:59.999Z falls in the FY starting 2023 and not 2024, and
one dated 2024-07-01T00:00:00.000Z falls in the FY starting 2024 and not
2023. -/
theorem CGTSummaryFY_spec (txn : List Tx) (y : ℕ) :
    (∀ t, inFYWindow y t = true ↔ inFYWindowSpec y t) ∧
    (CGTSummaryFY txn y).events = (txn.filter (inFYWindow y)).length ∧
    (CGTSummaryFY txn y).grossGain =
      ((txn.filter (inFYWindow y)).map (fun t => max 0 (t.gain.getD 0))).sum ∧
    (CGTSummaryFY txn y).discountGain =
      ((txn.filter (inFYWindow y)).map (fun t => max 0 (t.discountGain.getD 0))).sum ∧
    (CGTSummaryFY
        [Tx.mk "SELL" "X" 0 0 0 (some ((utcMillis 2024 6 30 23 59 59 999 : ℤ) : ℚ))
          none none none none] 2023).events = 1 ∧
    (CGTSummaryFY
        [Tx.mk "SELL" "X" 0 0 0 (some ((utcMillis 2024 6 30 23 59 59 999 : ℤ) : ℚ))
          none none none none] 2024).events = 0 ∧
    (CGTSummaryFY
        [Tx.mk "SELL" "X" 0 0 0 (some ((utcMillis 2024 7 1 0 0 0 0 : ℤ) : ℚ))
          none none none none] 2024).events = 1 ∧
    (CGTSummaryFY
        [Tx.mk "SELL" "X" 0 0 0 (some ((utcMillis 2024 7 1 0 0 0 0 : ℤ) : ℚ))
          none none none none] 2023).events = 0 := by
  refine ⟨?_, rfl, ?_, ?_, by decide, by decide, by decide, by decide⟩
  · intro t
    cases htd : t.date with
    | none => simp [inFYWindow, inFYWindowSpec, htd]
    | some d => simp [inFYWindow, inFYWindowSpec, htd, fyStartMs, fyEndMs, and_assoc]
  · simp only [CGTSummaryFY]
    rw [foldl_add_eq]
    simp
  · simp only [CGTSummaryFY]
    rw [foldl_add_eq]
    simp

/-- C10: a SELL transaction with no date (absent, null or empty all being
falsy in `t.date &&`) is silently excluded from the financial-year
summary: inserting it anywhere in the transaction list changes neither
the event count nor the gain sums. -/
theorem CGTSummaryFY_skips_dateless (pre post : List Tx) (t : Tx) (y : ℕ)
    (hd : t.date = none) :
    CGTSummaryFY (pre ++ t :: post) y = CGTSummaryFY (pre ++ post) y := by
  have hf : inFYWindow y t = false := by simp [inFYWindow, hd]
  simp [CGTSummaryFY, List.filter_append, List.filter_cons, hf]

/-- Witness for C10: a dateless SELL with positive gains contributes
nothing. -/
theorem CGTSummaryFY_skips_dateless_witness :
    (Tx.mk "SELL" "X" 100 1 100 none (some 100) (some 50) (some 50) (some 25)).date = none ∧
    CGTSummaryFY
        ([] ++ Tx.mk "SELL" "X" 100 1 100 none (some 100) (some 50) (some 50) (some 25) :: [])
        2023 =
      CGTSummaryFY ([] ++ []) 2023 :=
  ⟨rfl, CGTSummaryFY_skips_dateless [] []
    (Tx.mk "SELL" "X" 100 1 100 none (some 100) (some 50) (some 50) (some 25)) 2023 rfl⟩

/-- C6: the planner computes
`spendable = max(0, budget - fees - budget*bufferPct/100)` (inputs
clamped non-negative), returns the empty plan when spendable ≤ 0, gives
each asset `amount = spendable * targetWeight / totalWeight` with
`totalWeight = Σ targetWeight` (falling back to 1 when that sum is 0),
and when the weights sum to a positive total the planned amounts sum to
exactly `spendable`. -/
theorem plannedSplits_spec (assets : List Asset) (budget fees bufferPct : Option ℚ) :
    (spendableOf budget fees bufferPct ≤ 0 →
      plannedSplits assets budget fees bufferPct = []) ∧
    (0 < spendableOf budget fees bufferPct →
      plannedSplits assets budget fees bufferPct = assets.map (fun a =>
        PlanRow.mk a.ticker a.name a.targetWeight
          (spendableOf budget fees bufferPct *
            (a.targetWeight / (if weightTotal assets = 0 then 1 else weightTotal assets)))
          (if (0 : ℚ) < a.price then
            some (spendableOf budget fees bufferPct *
              (a.targetWeight / (if weightTotal assets = 0 then 1 else weightTotal assets)) /
              a.price)
           else none)
          a.price)) ∧
    (0 < spendableOf budget fees bufferPct → 0 < weightTotal assets →
      ((plannedSplits assets budget fees bufferPct).map PlanRow.amount).sum =
        spendableOf budget fees bufferPct) := by
  refine ⟨?_, ?_, ?_⟩
  · intro hs
    simp only [plannedSplits, if_pos hs]
  · intro hs
    simp only [plannedSplits, if_neg (not_le.mpr hs)]
  · intro hs hw0
    simp only [plannedSplits, if_neg (not_le.mpr hs), if_neg (ne_of_gt hw0), List.map_map]
    have hfun : (PlanRow.amount ∘ fun a : Asset =>
        PlanRow.mk a.ticker a.name a.targetWeight
          (spendableOf budget fees bufferPct * (a.targetWeight / weightTotal assets))
          (if (0 : ℚ) < a.price then
            some (spendableOf budget fees bufferPct *
              (a.targetWeight / weightTotal assets) / a.price)
           else none)
          a.price) =
        fun a : Asset =>
          (spendableOf budget fees bufferPct / weightTotal assets) * a.targetWeight := by
      funext a
      simp only [Function.comp]
      ring
    rw [hfun, List.sum_map_mul_left]
    have hw : weightTotal assets = (assets.map (fun a => a.targetWeight)).sum := by
      simp only [weightTotal]
      rw [foldl_add_eq]
      simp
    rw [← hw]
    exact div_mul_cancel₀ _ (ne_of_gt hw0)

/-- Witness for C6, the specification's own example: budget 1000, zero
fees and buffer, the five default target weights summing to 1; the
planned amounts sum to the spendable 1000. -/
theorem plannedSplits_spec_witness :
    spendableOf (some 1000) (some 0) (some 0) = 1000 ∧
    (0 : ℚ) < spendableOf (some 1000) (some 0) (some 0) ∧
    (0 : ℚ) < weightTotal
      [Asset.mk "VGS" "VGS" (35 / 100) 0 0 0 [] none,
       Asset.mk "VGE" "VGE" (15 / 100) 0 0 0 [] none,
       Asset.mk "A200" "A200" (30 / 100) 0 0 0 [] none,
       Asset.mk "VAF" "VAF" (10 / 100) 0 0 0 [] none,
       Asset.mk "GOLD" "GOLD" (10 / 100) 0 0 0 [] none] ∧
    ((plannedSplits
        [Asset.mk "VGS" "VGS" (35 / 100) 0 0 0 [] none,
         Asset.mk "VGE" "VGE" (15 / 100) 0 0 0 [] none,
         Asset.mk "A200" "A200" (30 / 100) 0 0 0 [] none,
         Asset.mk "VAF" "VAF" (10 / 100) 0 0 0 [] none,
         Asset.mk "GOLD" "GOLD" (10 / 100) 0 0 0 [] none]
        (some 1000) (some 0) (some 0)).map PlanRow.amount).sum =
      spendableOf (some 1000) (some 0) (some 0) :=
  ⟨by norm_num [spendableOf, numOr0], by norm_num [spendableOf, numOr0],
   by norm_num [weightTotal],
   (plannedSplits_spec
      [Asset.mk "VGS" "VGS" (35 / 100) 0 0 0 [] none,
       Asset.mk "VGE" "VGE" (15 / 100) 0 0 0 [] none,
       Asset.mk "A200" "A200" (30 / 100) 0 0 0 [] none,
       Asset.mk "VAF" "VAF" (10 / 100) 0 0 0 [] none,
       Asset.mk "GOLD" "GOLD" (10 / 100) 0 0 0 [] none]
      (some 1000) (some 0) (some 0)).2.2
    (by norm_num [spendableOf, numOr0]) (by norm_num [weightTotal])⟩

/-- C9: `suggestions` returns the empty list when disabled or when the
total market value is not positive; otherwise it holds exactly the
per-asset drift rows whose `|driftPct|` reaches the threshold (as a
permutation of the filtered rows, in particular the same member set),
it is sorted in descending order of `|driftPct|`, and re-running it on
unchanged inputs yields the identical output and ordering. -/
theorem suggestions_spec (assets : List Asset) (totalValue thresholdPct : ℚ) (enabled : Bool) :
    (enabled = false ∨ totalValue ≤ 0 →
      suggestions assets totalValue thresholdPct enabled = []) ∧
    (enabled = true → 0 < totalValue →
      (suggestions assets totalValue thresholdPct enabled).Perm
        ((assets.map (driftRow totalValue)).filter
          (fun d => decide (thresholdPct ≤ |d.diffPct|)))) ∧
    (suggestions assets totalValue thresholdPct enabled).Pairwise
      (fun x y => |y.diffPct| ≤ |x.diffPct|) ∧
    suggestions assets totalValue thresholdPct enabled =
      suggestions assets totalValue thresholdPct enabled := by
  refine ⟨?_, ?_, ?_, rfl⟩
  · intro h
    rcases h with h | h
    · simp [suggestions, h]
    · simp [suggestions, h]
  · intro he hv
    simp only [suggestions, he, Bool.not_true, Bool.false_or,
      decide_eq_false (not_le.mpr hv), if_neg Bool.false_ne_true]
    exact List.mergeSort_perm _ _
  · by_cases hc : (!enabled || decide (totalValue ≤ 0)) = true
    · simp [suggestions, hc]
    · simp only [suggestions, if_neg hc]
      refine List.Pairwise.imp ?_ (List.sorted_mergeSort ?_ ?_ _)
      · intro x y h
        exact of_decide_eq_true h
      · intro x y z hxy hyz
        simp only [decide_eq_true_eq] at hxy hyz ⊢
        exact le_trans hyz hxy
      · intro x y
        simp only [Bool.or_eq_true, decide_eq_true_eq]
        exact le_total _ _

/-- Witness for C9: two assets with drifts +100 and −100 against a
threshold of 50, total value 1, analyzer enabled. -/
theorem suggestions_spec_witness :
    true = true ∧ (0 : ℚ) < 1 ∧
    (suggestions
        [Asset.mk "A" "A" 0 1 1 0 [] none, Asset.mk "B" "B" 1 0 0 0 [] none]
        1 50 true).Perm
      (([Asset.mk "A" "A" 0 1 1 0 [] none, Asset.mk "B" "B" 1 0 0 0 [] none].map
          (driftRow 1)).filter (fun d => decide ((50 : ℚ) ≤ |d.diffPct|))) :=
  ⟨rfl, by norm_num,
   (suggestions_spec [Asset.mk "A" "A" 0 1 1 0 [] none, Asset.mk "B" "B" 1 0 0 0 [] none]
      1 50 true).2.1 rfl (by norm_num)⟩

/-- C7: importing parsed JSON without an `assets` array (parse failure,
missing key, or non-array value — e.g. the empty object) reports an
error and leaves the in-memory state unchanged; importing JSON whose
`assets` is an array succeeds with no error, replaces the assets, and
sets the transactions to the imported array when `transactions` is an
array and to the empty array otherwise. -/
theorem onImportFile_spec (st : SnapshotState) (contents : Option Json) :
    ((contents = none ∨ ∃ data, contents = some data ∧
        ¬ ∃ as, data.getField "assets" = some (Json.arr as)) →
      (onImportFile st contents).1 = st ∧ (onImportFile st contents).2 ≠ none) ∧
    (∀ data as, contents = some data → data.getField "assets" = some (Json.arr as) →
      (onImportFile st contents).2 = none ∧
      (onImportFile st contents).1.assets = Json.arr as ∧
      ((∃ ts, data.getField "transactions" = some (Json.arr ts) ∧
          (onImportFile st contents).1.transactions = Json.arr ts) ∨
        ((¬ ∃ ts, data.getField "transactions" = some (Json.arr ts)) ∧
          (onImportFile st contents).1.transactions = Json.arr []))) := by
  constructor
  · intro h
    rcases h with h | ⟨data, hc, hno⟩
    · subst h
      exact ⟨rfl, by simp [onImportFile]⟩
    · subst hc
      simp only [onImportFile]
      rcases hga : data.getField "assets" with _ | j
      · simp
      · cases j with
        | arr as => exact absurd ⟨as, hga⟩ hno
        | null => simp
        | bool b => simp
        | num q => simp
        | str s => simp
        | obj fs => simp
  · intro data as hc hga
    subst hc
    simp only [onImportFile, hga]
    refine ⟨by trivial, by trivial, ?_⟩
    rcases hgt : data.getField "transactions" with _ | j
    · exact Or.inr ⟨by simp [hgt], by simp [hgt]⟩
    · cases j with
      | arr ts => exact Or.inl ⟨ts, rfl, by simp [hgt]⟩
      | null => exact Or.inr ⟨by simp [hgt], by simp [hgt]⟩
      | bool b => exact Or.inr ⟨by simp [hgt], by simp [hgt]⟩
      | num q => exact Or.inr ⟨by simp [hgt], by simp [hgt]⟩
      | str s => exact Or.inr ⟨by simp [hgt], by simp [hgt]⟩
      | obj fs => exact Or.inr ⟨by simp [hgt], by simp [hgt]⟩

/-- Witness for C7: importing the empty object `\x7b\x7d` fails with a
reported error and leaves the prior state untouched. -/
theorem onImportFile_spec_witness :
    ((some (Json.obj []) = (none : Option Json) ∨ ∃ data, some (Json.obj []) = some data ∧
        ¬ ∃ as, data.getField "assets" = some (Json.arr as)) ∧
      (onImportFile (SnapshotState.mk (Json.arr [Json.str "keep"]) (Json.arr []))
          (some (Json.obj []))).1 =
        SnapshotState.mk (Json.arr [Json.str "keep"]) (Json.arr []) ∧
      (onImportFile (SnapshotState.mk (Json.arr [Json.str "keep"]) (Json.arr []))
          (some (Json.obj []))).2 ≠ none) :=
  ⟨Or.inr ⟨Json.obj [], rfl, by simp [Json.getField]⟩,
   (onImportFile_spec (SnapshotState.mk (Json.arr [Json.str "keep"]) (Json.arr []))
      (some (Json.obj []))).1
     (Or.inr ⟨Json.obj [], rfl, by simp [Json.getField]⟩)⟩

/-- C8: `getCAGR` returns 0 when the asset has no first-contribution
date or its `invested` is not positive; returns 0 when the elapsed time
in 365.25-day years is not positive; returns −1 when the market value
`units * price` is not positive; and otherwise returns
`(value / invested) ^ (1 / years) - 1`. -/
theorem getCAGR_spec (a : Asset) (now : ℚ) :
    (a.firstContribution = none ∨ a.invested ≤ 0 → getCAGR a now = 0) ∧
    (∀ fc, a.firstContribution = some fc → ¬ a.invested ≤ 0 →
      yearsBetween fc now ≤ 0 → getCAGR a now = 0) ∧
    (∀ fc, a.firstContribution = some fc → ¬ a.invested ≤ 0 →
      0 < yearsBetween fc now → a.units * a.price ≤ 0 → getCAGR a now = -1) ∧
    (∀ fc, a.firstContribution = some fc → ¬ a.invested ≤ 0 →
      0 < yearsBetween fc now → 0 < a.units * a.price →
      getCAGR a now =
        Real.rpow ((a.units * a.price / a.invested : ℚ) : ℝ)
          (((1 / yearsBetween fc now : ℚ)) : ℝ) - 1) := by
  refine ⟨?_, ?_, ?_, ?_⟩
  · intro h
    rcases h with h | h
    · simp [getCAGR, h]
    · cases hfc : a.firstContribution with
      | none => simp [getCAGR, hfc]
      | some fc =>
        simp only [getCAGR, hfc]
        rw [if_pos h]
  · intro fc hfc hi hy
    simp only [getCAGR, hfc]
    rw [if_neg hi, if_pos hy]
  · intro fc hfc hi hy hv
    simp only [getCAGR, hfc]
    rw [if_neg hi, if_neg (not_le.mpr hy), if_pos hv]
  · intro fc hfc hi hy hv
    simp only [getCAGR, hfc]
    rw [if_neg hi, if_neg (not_le.mpr hy), if_neg (not_le.mpr hv)]

/-- Witness for C8: an asset that was never bought into
(`firstContribution = none`) has CAGR 0. -/
theorem getCAGR_spec_witness :
    ((Asset.mk "X" "X" 0 121 1 100 [] none).firstContribution = none ∨
      (Asset.mk "X" "X" 0 121 1 100 [] none).invested ≤ 0) ∧
    getCAGR (Asset.mk "X" "X" 0 121 1 100 [] none) 0 = 0 :=
  ⟨Or.inl rfl, (getCAGR_spec (Asset.mk "X" "X" 0 121 1 100 [] none) 0).1 (Or.inl rfl)⟩

/-- Witness for C5 at a concrete input: the empty transaction list in FY
2023 has zero matched events. -/
theorem CGTSummaryFY_spec_witness :
    (CGTSummaryFY [] 2023).events = (List.filter (inFYWindow 2023) []).length :=
  (CGTSummaryFY_spec [] 2023).2.1
